import Mathlib

/-!
Verification of the broken-link checker (`qc/check_broken_links.py`).

The development shallowly embeds the checker's pure logic:

* string containment (`"needle" in haystack`) and `str.startswith`, used by
  `get_domain_delay`, the report classifier, and the link extractor;
* `extract_links_from_html` over an abstract tag list;
* `check_url_with_rate_limit` over a network oracle (a `TimedScript` saying
  what HEAD and GET would return and how long each attempt takes), together
  with a rational-clock timing trace (`runCheck`) that records request issue
  times and the `domain_last_request` timestamp updates;
* the report classifier of `main` (status/reason -> category);
* `check_local_file` over a file-system oracle, with `os.path.join` and
  `os.path.dirname` modelled for POSIX paths;
* the batch splitter and the result-map aggregation of `main`.
-/

namespace BrokenLinkCheck

/-- `leadsList p s` is true when the list `p` is an initial segment of `s`
(character-level model of Python `s.startswith(p)`). -/
def leadsList : List Char → List Char → Bool
  | [], _ => true
  | _ :: _, [] => false
  | a :: as, b :: bs => a == b && leadsList as bs

/-- `containsSeg pat s` is true when `pat` occurs contiguously inside `s`
(character-level model of Python `pat in s`). -/
def containsSeg : List Char → List Char → Bool
  | pat, [] => pat.isEmpty
  | pat, c :: rest => leadsList pat (c :: rest) || containsSeg pat rest

/-- Model of Python `pat in s` on strings. -/
def strContains (s pat : String) : Bool := containsSeg pat.data s.data

/-- Model of Python `s.startswith(p)`. -/
def strStarts (s p : String) : Bool := leadsList p.data s.data

/-- Model of Python `s.endswith(p)`. -/
def strEnds (s p : String) : Bool := leadsList p.data.reverse s.data.reverse

/-! ## Link extractor (`extract_links_from_html`, lines 41-91)

HTML parsing itself (BeautifulSoup) is external; the extractor's logic is a
triple pass over the parsed tags: all `<a href=...>` tags, then all
`<img src=...>` tags, then all `<link href=...>` tags.  A tag whose relevant
attribute is absent is not returned by `find_all(..., href=True)`, hence the
`Option String` payloads. -/

/-- Kind tags of extracted references, line 55-56 of the source. -/
inductive LinkKind where
  | link
  | image
  | local_image
  | resource
deriving DecidableEq, Repr

/-- A parsed HTML tag as the extractor sees it: anchor, image or resource
link with its (possibly missing) target attribute, or any other tag. -/
inductive HtmlTag where
  | aTag (href : Option String)
  | imgTag (src : Option String)
  | linkTag (href : Option String)
  | otherTag
deriving DecidableEq, Repr

/-- First pass, lines 66-69: anchors whose `href` starts with `http`. -/
def aPass : HtmlTag → Option (LinkKind × String)
  | HtmlTag.aTag (some href) =>
      if strStarts href "http" then some (LinkKind.link, href) else none
  | _ => none

/-- Second pass, lines 72-80: images, remote when `src` starts with `http`,
local unless the `src` is a fragment (`#...`) or a data URL (`data:...`). -/
def imgPass : HtmlTag → Option (LinkKind × String)
  | HtmlTag.imgTag (some src) =>
      if strStarts src "http" then some (LinkKind.image, src)
      else if !strStarts src "#" && !strStarts src "data:" then
        some (LinkKind.local_image, src)
      else none
  | _ => none

/-- Third pass, lines 83-86: `<link>` resources whose `href` starts with `http`. -/
def linkPass : HtmlTag → Option (LinkKind × String)
  | HtmlTag.linkTag (some href) =>
      if strStarts href "http" then some (LinkKind.resource, href) else none
  | _ => none

/-- `extract_links_from_html`, lines 58-88: the three passes concatenated in
source order. -/
def extract_links_from_html (tags : List HtmlTag) : List (LinkKind × String) :=
  tags.filterMap aPass ++ tags.filterMap imgPass ++ tags.filterMap linkPass

/-- An anchor, image or `<link>` tag (the tag population the spec counts). -/
def isRefTag : HtmlTag → Bool
  | HtmlTag.aTag _ => true
  | HtmlTag.imgTag _ => true
  | HtmlTag.linkTag _ => true
  | HtmlTag.otherTag => false

/-- Anchors that yield a tuple: `href` present and starting with `http`. -/
def qualifiesA : HtmlTag → Bool
  | HtmlTag.aTag (some href) => strStarts href "http"
  | _ => false

/-- Images that yield a tuple: `src` present, and either remote or a
non-fragment non-data relative path. -/
def qualifiesImg : HtmlTag → Bool
  | HtmlTag.imgTag (some src) =>
      strStarts src "http" || (!strStarts src "#" && !strStarts src "data:")
  | _ => false

/-- `<link>` tags that yield a tuple: `href` present and starting with `http`. -/
def qualifiesLink : HtmlTag → Bool
  | HtmlTag.linkTag (some href) => strStarts href "http"
  | _ => false

/-- Correct classification of one extracted tuple: the kind matches the tag
the target came from and the URL scheme filters of that pass. -/
def kindSound (tags : List HtmlTag) : LinkKind × String → Prop
  | (LinkKind.link, u) =>
      HtmlTag.aTag (some u) ∈ tags ∧ strStarts u "http" = true
  | (LinkKind.image, u) =>
      HtmlTag.imgTag (some u) ∈ tags ∧ strStarts u "http" = true
  | (LinkKind.local_image, u) =>
      HtmlTag.imgTag (some u) ∈ tags ∧ strStarts u "http" = false ∧
        strStarts u "#" = false ∧ strStarts u "data:" = false
  | (LinkKind.resource, u) =>
      HtmlTag.linkTag (some u) ∈ tags ∧ strStarts u "http" = true

/-! ## Rate limiting and the URL checker (lines 93-188)

`requests.head` / `requests.get` are external; a `TimedScript` is the network
oracle for one call: what each request would return and how long it takes.
Time is a rational abstract clock.  The per-domain lock serializes all checks
of one domain, so two consecutive checks of a domain compose sequentially:
the second receives the `domain_last_request` value written by the first. -/

/-- `get_domain_delay`, lines 99-117 (`'doi.org' in domain` is substring
containment); the source values 2.0, 3.0, 0.5 are the rationals 2, 3, 1/2. -/
def get_domain_delay (domain : String) : ℚ :=
  if strContains domain "doi.org" || strContains domain "jstor.org" then 2
  else if strContains domain "oed.com" || strContains domain "britishmuseum.org" then 3
  else 1/2

/-- Outcome of one HTTP request: a response (status, reason phrase) or a
transport failure (`requests.exceptions.RequestException` text). -/
inductive HttpResult where
  | success (status : Nat) (reason : String)
  | failure (err : String)
deriving DecidableEq, Repr

/-- The network-supplied text of an outcome. -/
def HttpResult.text : HttpResult → String
  | HttpResult.success _ r => r
  | HttpResult.failure e => e

/-- Network oracle for one `check_url_with_rate_limit` call: the outcome and
duration of the HEAD attempt, and of the GET attempt should one be issued. -/
structure TimedScript where
  headResult : HttpResult
  headDur : ℚ
  getResult : HttpResult
  getDur : ℚ
deriving DecidableEq, Repr

/-- A network text is benign when it does not accidentally contain either of
the two marker phrases the checker itself appends (standard HTTP reason
phrases and `requests` exception texts never do). -/
def benignText (r : String) : Prop :=
  strContains r "works with browser headers" = false ∧
    strContains r "may work in browser" = false

/-- All network-supplied texts of a script are benign. -/
def benignScript (s : TimedScript) : Prop :=
  benignText s.headResult.text ∧ benignText s.getResult.text

/-- Observable trace of one `check_url_with_rate_limit` call: the times the
requests were issued, the `domain_last_request` value at return, the time the
call returns, and the returned `(status, reason)` pair. -/
structure CheckTrace where
  issues : List ℚ
  newLast : ℚ
  finish : ℚ
  result : Option Nat × String
deriving DecidableEq, Repr

/-- Time at which the first (HEAD) request is issued, lines 158-160: sleep
`delay - time_since_last` when the gap since `domain_last_request` is short. -/
def firstReqTime (domain : String) (last entry : ℚ) : ℚ :=
  let delay := get_domain_delay domain
  if entry - last < delay then entry + (delay - (entry - last)) else entry

/-- `check_url_with_rate_limit`, lines 119-188, as a timed trace.

* `last` is `domain_last_request[domain]` on entering the lock, `entry` the
  clock when the lock is acquired.
* HEAD is issued at `firstReqTime` and resolves after `headDur`; on success
  the timestamp is written (line 165).  On status 405/406 a GET retry is
  issued immediately (line 170) with **no further timestamp update**; a 200
  retry gains the `works with browser headers` marker (line 173), a failed
  retry keeps the HEAD status with the `HEAD only` marker (line 176).
* On a HEAD transport failure the GET fallback is issued immediately
  (line 183) and the timestamp is written after it, whether it succeeds
  (line 184) or fails (line 187), in which case `(None, str(e2))` is
  returned (line 188). -/
def runCheck (domain : String) (last entry : ℚ) (s : TimedScript) : CheckTrace :=
  let t0 := firstReqTime domain last entry
  let t1 := t0 + s.headDur
  match s.headResult with
  | HttpResult.success st reason =>
    if st = 405 ∨ st = 406 then
      let t2 := t1 + s.getDur
      match s.getResult with
      | HttpResult.success gst greason =>
          if gst = 200 then
            ⟨[t0, t1], t1, t2, (some gst, greason ++ " (works with browser headers)")⟩
          else
            ⟨[t0, t1], t1, t2, (some gst, greason)⟩
      | HttpResult.failure _ =>
          ⟨[t0, t1], t1, t2, (some st, reason ++ " (HEAD only, may work in browser)")⟩
    else
      ⟨[t0], t1, t1, (some st, reason)⟩
  | HttpResult.failure _ =>
    let t2 := t1 + s.getDur
    match s.getResult with
    | HttpResult.success gst greason =>
        ⟨[t0, t1], t2, t2, (some gst, greason ++ " (GET only)")⟩
    | HttpResult.failure e2 =>
        ⟨[t0, t1], t2, t2, (none, e2)⟩

/-! ## Report classifier (`main`, lines 398-411) -/

/-- Issue categories of the final report. -/
inductive Category where
  | broken
  | browser_ok
  | maybe_ok
deriving DecidableEq, Repr

/-- Lines 401-409: category of a failing check from its reason text. -/
def categorize (reason : String) : Category :=
  if strContains reason "works with browser headers" then Category.browser_ok
  else if strContains reason "may work in browser" then Category.maybe_ok
  else Category.broken

/-- Lines 399-411: a URL becomes an issue (with a category) only when its
status is `None` or at least 400; otherwise it is not reported at all. -/
def classifyIssue (status : Option Nat) (reason : String) : Option Category :=
  match status with
  | none => some (categorize reason)
  | some st => if 400 ≤ st then some (categorize reason) else none

/-! ## Local file verifier (`check_local_file`, lines 214-246)

The file system is an oracle `fs : String → Bool` for `os.path.exists`;
`os.path.join` and `os.path.dirname` are modelled for POSIX paths. -/

/-- POSIX `os.path.join` for one component: an absolute second argument
replaces the first, otherwise a `/` separator is inserted unless already
present. -/
def osJoin (d p : String) : String :=
  if strStarts p "/" then p
  else if d = "" then p
  else if strEnds d "/" then d ++ p
  else d ++ "/" ++ p

/-- Drop trailing `/` characters (Python `str.rstrip('/')`). -/
def rstripSlashes (l : List Char) : List Char :=
  (l.reverse.dropWhile (fun c => c == '/')).reverse

/-- POSIX `os.path.dirname`: the part before the last `/`, with trailing
slashes stripped unless the head is all slashes. -/
def osDirname (p : String) : String :=
  let l := p.data
  let i := l.length - (l.reverse.takeWhile (fun c => !(c == '/'))).length
  let head := l.take i
  if !head.isEmpty && head.any (fun c => !(c == '/')) then
    String.mk (rstripSlashes head)
  else
    String.mk head

/-- `check_local_file`, lines 232-246: try the path under the HTML directory,
then under its parent (the project root); the `try/except` is dead for the
pure path operations involved. -/
def check_local_file (fs : String → Bool) (file_path html_dir : String) :
    Bool × String :=
  if fs (osJoin html_dir file_path) then (true, "File exists")
  else if fs (osJoin (osDirname html_dir) file_path) then (true, "File exists")
  else (false, "File not found")

/-! ## Batch aggregation (`main`, lines 320-352)

A Python dict is a partial map; `url_status.update(batch_results)` overrides
pointwise.  Batches complete in an arbitrary order, i.e. the aggregate is the
fold over some permutation of the submitted batch results. -/

/-- Pointwise model of `dict.update`: the right map wins where defined. -/
def dict_update {V : Type} (acc b : String → Option V) : String → Option V :=
  fun k => match b k with
    | some v => some v
    | none => acc k

/-- Folding `url_status.update(batch_results)` over completed batches,
starting from the empty `url_status = {}` (line 300). -/
def merge_results {V : Type} (batches : List (String → Option V)) :
    String → Option V :=
  batches.foldl dict_update (fun _ => none)

/-- Key set of a partial map. -/
def dictKeys {V : Type} (d : String → Option V) : Set String :=
  {k | d k ≠ none}

/-- Concrete one-key map, used to witness the aggregation theorem. -/
def wDictA : String → Option Nat := fun k => if k = "a" then some 0 else none

/-- Concrete one-key map, used to witness the aggregation theorem. -/
def wDictB : String → Option Nat := fun k => if k = "b" then some 1 else none

/-! ## Batch splitting (`main`, lines 320-328) -/

/-- `batch_size = 20`, line 322. -/
def batch_size : Nat := 20

/-- Fuel-indexed chunking; fuel bounded by the list length makes the
source's `for i in range(0, len(urls), batch_size)` loop structural. -/
def chunkFuel {α : Type} : Nat → List α → List (List α)
  | _, [] => []
  | 0, _ :: _ => []
  | fuel + 1, x :: xs =>
      ((x :: xs).take batch_size) :: chunkFuel fuel ((x :: xs).drop batch_size)

/-- Lines 323-328: split the unique URL list into consecutive slices
`urls[i:i+batch_size]`. -/
def urlBatches {α : Type} (l : List α) : List (List α) :=
  chunkFuel l.length l

/-! ## Concrete scripts and oracles used by the witness theorems -/

/-- HEAD rejected with 405, GET retry succeeds with 200. -/
def wBrowser : TimedScript :=
  ⟨HttpResult.success 405 "Method Not Allowed", 1, HttpResult.success 200 "OK", 1⟩

/-- HEAD rejected with 405, GET retry fails at transport level. -/
def wBlocked : TimedScript :=
  ⟨HttpResult.success 405 "Method Not Allowed", 1, HttpResult.failure "read timed out", 1⟩

/-- Both HEAD and GET fail at transport level. -/
def wFail : TimedScript :=
  ⟨HttpResult.failure "HEAD connection error", 1, HttpResult.failure "GET connection error", 1⟩

/-- Plain successful check. -/
def wPlain : TimedScript :=
  ⟨HttpResult.success 200 "OK", 1, HttpResult.success 200 "OK", 0⟩

/-- Tag soup with one qualifying tag of each pass and one inert tag. -/
def wTags : List HtmlTag :=
  [HtmlTag.aTag (some "http://a.example/x"),
   HtmlTag.imgTag (some "images/fig1.png"),
   HtmlTag.linkTag (some "https://c.example/style.css"),
   HtmlTag.otherTag]

/-- File-system oracle holding exactly the project-root copy of the image. -/
def fs0 : String → Bool := fun s => s == "../images/fig.png"

theorem leadsList_iff (p : List Char) : ∀ s : List Char,
    leadsList p s = true ↔ ∃ t, s = p ++ t := by
  induction p with
  | nil => intro s; simp [leadsList]
  | cons a as ih =>
    intro s
    cases s with
    | nil => simp [leadsList]
    | cons b bs =>
      simp only [leadsList, Bool.and_eq_true, beq_iff_eq, ih bs, List.cons_append,
        List.cons.injEq]
      constructor
      · rintro ⟨rfl, t, rfl⟩
        exact ⟨t, rfl, rfl⟩
      · rintro ⟨t, rfl, rfl⟩
        exact ⟨rfl, t, rfl⟩

theorem containsSeg_iff (p : List Char) : ∀ s : List Char,
    containsSeg p s = true ↔ ∃ a b, s = a ++ p ++ b := by
  intro s
  induction s with
  | nil =>
    simp only [containsSeg, List.isEmpty_iff]
    constructor
    · rintro rfl
      exact ⟨[], [], rfl⟩
    · rintro ⟨a, b, h⟩
      rcases List.append_eq_nil.mp h.symm with ⟨h1, h2⟩
      rcases List.append_eq_nil.mp h1 with ⟨_, h3⟩
      exact h3
  | cons c rest ih =>
    simp only [containsSeg, Bool.or_eq_true, leadsList_iff, ih]
    constructor
    · rintro (⟨t, h⟩ | ⟨a, b, rfl⟩)
      · exact ⟨[], t, by simpa using h⟩
      · exact ⟨c :: a, b, rfl⟩
    · rintro ⟨a, b, h⟩
      cases a with
      | nil =>
        exact Or.inl ⟨b, by simpa using h⟩
      | cons x a2 =>
        rcases List.cons_eq_cons.mp (by simpa [List.append_assoc] using h) with ⟨rfl, h2⟩
        exact Or.inr ⟨a2, b, by simpa [List.append_assoc] using h2⟩

theorem containsSeg_append_of_right (p a b : List Char)
    (h : containsSeg p b = true) : containsSeg p (a ++ b) = true := by
  rcases (containsSeg_iff p b).mp h with ⟨u, v, rfl⟩
  exact (containsSeg_iff p _).mpr ⟨a ++ u, v, by simp⟩

/-- An occurrence of `p` in `a ++ b` lies inside `a`, inside `b`, or spans the
boundary, in which case a nonempty tail of `p` starts `b`. -/
theorem containsSeg_append_split (p a b : List Char)
    (h : containsSeg p (a ++ b) = true) :
    containsSeg p a = true ∨ containsSeg p b = true ∨
      ∃ i : Fin (p.length + 1), i.val ≠ 0 ∧ p.drop i.val ≠ [] ∧
        leadsList (p.drop i.val) b = true := by
  rcases (containsSeg_iff p (a ++ b)).mp h with ⟨u, v, e⟩
  have e2 : (u ++ p) ++ v = a ++ b := e.symm
  have hbdrop : b = ((u ++ p) ++ v).drop a.length := by
    rw [e2, List.drop_left]
  rcases le_or_lt (u.length + p.length) a.length with hin | hspill
  · -- the occurrence lies entirely inside `a`
    left
    have ha : a = (u ++ p) ++ v.take (a.length - (u ++ p).length) := by
      calc a = ((u ++ p) ++ v).take a.length := by rw [e2, List.take_left]
        _ = (u ++ p).take a.length ++ v.take (a.length - (u ++ p).length) :=
            List.take_append_eq_append_take
        _ = (u ++ p) ++ v.take (a.length - (u ++ p).length) := by
            rw [List.take_of_length_le (by simpa using hin)]
    exact (containsSeg_iff p a).mpr ⟨u, _, by rw [ha, List.append_assoc]⟩
  rcases le_or_lt a.length u.length with hb | hu
  · -- the occurrence lies entirely inside `b`
    right; left
    have hb2 : b = (u.drop a.length ++ p) ++ v := by
      calc b = ((u ++ p) ++ v).drop a.length := hbdrop
        _ = (u ++ p).drop a.length ++ v.drop (a.length - (u ++ p).length) :=
            List.drop_append_eq_append_drop
        _ = (u.drop a.length ++ p.drop (a.length - u.length))
              ++ v.drop (a.length - (u ++ p).length) := by
            rw [List.drop_append_eq_append_drop]
        _ = (u.drop a.length ++ p) ++ v := by
            have hz : a.length - (u ++ p).length = 0 := by
              rw [List.length_append]; omega
            rw [Nat.sub_eq_zero_of_le hb, List.drop_zero, hz, List.drop_zero]
    exact (containsSeg_iff p b).mpr ⟨u.drop a.length, v, by rw [hb2, List.append_assoc]⟩
  · -- the occurrence spans the boundary between `a` and `b`
    right; right
    have hi2 : a.length - u.length < p.length := by omega
    refine ⟨⟨a.length - u.length, by omega⟩, ?_, ?_, ?_⟩
    · show a.length - u.length ≠ 0
      omega
    · show p.drop (a.length - u.length) ≠ []
      rw [Ne, List.drop_eq_nil_iff]
      omega
    · show leadsList (p.drop (a.length - u.length)) b = true
      have hb3 : b = p.drop (a.length - u.length) ++ v := by
        rw [hbdrop, List.append_assoc, List.drop_append_eq_append_drop,
          List.drop_of_length_le (Nat.le_of_lt hu), List.nil_append,
          List.drop_append_eq_append_drop,
          Nat.sub_eq_zero_of_le (Nat.le_of_lt hi2), List.drop_zero]
      exact (leadsList_iff _ b).mpr ⟨v, hb3⟩

theorem containsSeg_append_false (p a b : List Char)
    (ha : containsSeg p a = false) (hb : containsSeg p b = false)
    (hspan : ∀ i : Fin (p.length + 1),
      i.val = 0 ∨ p.drop i.val = [] ∨ leadsList (p.drop i.val) b = false) :
    containsSeg p (a ++ b) = false := by
  cases hc : containsSeg p (a ++ b) with
  | false => rfl
  | true =>
    exfalso
    rcases containsSeg_append_split p a b hc with h1 | h1 | ⟨i, hi0, hin, hl⟩
    · rw [ha] at h1; cases h1
    · rw [hb] at h1; cases h1
    · rcases hspan i with h | h | h
      · exact hi0 h
      · exact hin h
      · rw [h] at hl; cases hl

/-- Appending the `HEAD only` marker to a reason that does not contain the
`works with browser headers` marker cannot create an occurrence of it. -/
theorem headonly_no_browser_marker (r : String)
    (h : strContains r "works with browser headers" = false) :
    strContains (r ++ " (HEAD only, may work in browser)")
      "works with browser headers" = false := by
  unfold strContains at h ⊢
  rw [String.data_append]
  exact containsSeg_append_false _ _ _ h (by decide) (by decide)

/-- Appending the `GET only` marker to a reason that does not contain the
`works with browser headers` marker cannot create an occurrence of it. -/
theorem getonly_no_browser_marker (r : String)
    (h : strContains r "works with browser headers" = false) :
    strContains (r ++ " (GET only)") "works with browser headers" = false := by
  unfold strContains at h ⊢
  rw [String.data_append]
  exact containsSeg_append_false _ _ _ h (by decide) (by decide)

/-- The `HEAD only` marker does contain the `may work in browser` phrase. -/
theorem headonly_has_maywork_marker (r : String) :
    strContains (r ++ " (HEAD only, may work in browser)")
      "may work in browser" = true := by
  unfold strContains
  rw [String.data_append]
  exact containsSeg_append_of_right _ _ _ (by decide)

/-- The first (HEAD) request of a call is never issued earlier than the
stored last-request time plus the domain delay. -/
theorem firstReq_ge (domain : String) (last entry : ℚ) :
    last + get_domain_delay domain ≤ firstReqTime domain last entry := by
  simp only [firstReqTime]
  split
  · linarith
  · linarith

/-- Every request of a call is issued at or after `last + delay`, and no
later than the timestamp the call stores back. -/
theorem runCheck_issue_bounds (domain : String) (last entry : ℚ)
    (s : TimedScript) (hh : 0 ≤ s.headDur) (hg : 0 ≤ s.getDur) :
    ∀ t ∈ (runCheck domain last entry s).issues,
      last + get_domain_delay domain ≤ t ∧
        t ≤ (runCheck domain last entry s).newLast := by
  have h0 := firstReq_ge domain last entry
  obtain ⟨hr, hd, gr, gd⟩ := s
  dsimp only at hh hg
  intro t ht
  cases hr with
  | success st rs =>
    by_cases h45 : st = 405 ∨ st = 406
    · cases gr with
      | success gst grs =>
        by_cases h200 : gst = 200 <;>
        · simp [runCheck, h45, h200] at ht ⊢
          rcases ht with rfl | rfl <;> constructor <;> linarith
      | failure e =>
        simp [runCheck, h45] at ht ⊢
        rcases ht with rfl | rfl <;> constructor <;> linarith
    · simp [runCheck, h45] at ht ⊢
      subst ht
      constructor <;> linarith
  | failure e1 =>
    cases gr with
    | success gst grs =>
      simp [runCheck] at ht ⊢
      rcases ht with rfl | rfl <;> constructor <;> linarith
    | failure e2 =>
      simp [runCheck] at ht ⊢
      rcases ht with rfl | rfl <;> constructor <;> linarith

/-- C3: for two consecutive checks of URLs of the same domain (the per-domain
lock serializes them, so the second check reads the `domain_last_request`
timestamp written by the first, whichever worker thread runs it), every
request of the second check is issued at least the domain's configured delay
after every request of the first; the configured delays are 2 for
doi.org/jstor.org domains, 3 for oed.com/britishmuseum.org domains and 1/2
(0.5 s) otherwise. -/
theorem same_domain_request_gap (domain : String) (last entry1 entry2 : ℚ)
    (s1 s2 : TimedScript)
    (h1 : 0 ≤ s1.headDur) (h2 : 0 ≤ s1.getDur)
    (h3 : 0 ≤ s2.headDur) (h4 : 0 ≤ s2.getDur) :
    (∀ t1 ∈ (runCheck domain last entry1 s1).issues,
      ∀ t2 ∈ (runCheck domain (runCheck domain last entry1 s1).newLast
                entry2 s2).issues,
        get_domain_delay domain ≤ t2 - t1) ∧
    get_domain_delay "doi.org" = 2 ∧
    get_domain_delay "api.jstor.org" = 2 ∧
    get_domain_delay "www.oed.com" = 3 ∧
    get_domain_delay "britishmuseum.org" = 3 ∧
    get_domain_delay "example.com" = 1/2 := by
  refine ⟨?_, ?_, ?_, ?_, ?_, ?_⟩
  · intro t1 ht1 t2 ht2
    have b1 := (runCheck_issue_bounds domain last entry1 s1 h1 h2 t1 ht1).2
    have b2 := (runCheck_issue_bounds domain
      (runCheck domain last entry1 s1).newLast entry2 s2 h3 h4 t2 ht2).1
    linarith
  · unfold get_domain_delay
    rw [show strContains "doi.org" "doi.org" = true from by decide]
    simp
  · unfold get_domain_delay
    rw [show strContains "api.jstor.org" "jstor.org" = true from by decide]
    simp
  · unfold get_domain_delay
    rw [show strContains "www.oed.com" "doi.org" = false from by decide,
      show strContains "www.oed.com" "jstor.org" = false from by decide,
      show strContains "www.oed.com" "oed.com" = true from by decide]
    simp
  · unfold get_domain_delay
    rw [show strContains "britishmuseum.org" "doi.org" = false from by decide,
      show strContains "britishmuseum.org" "jstor.org" = false from by decide,
      show strContains "britishmuseum.org" "oed.com" = false from by decide,
      show strContains "britishmuseum.org" "britishmuseum.org" = true from by decide]
    simp
  · unfold get_domain_delay
    rw [show strContains "example.com" "doi.org" = false from by decide,
      show strContains "example.com" "jstor.org" = false from by decide,
      show strContains "example.com" "oed.com" = false from by decide,
      show strContains "example.com" "britishmuseum.org" = false from by decide]
    simp

/-- C3 witness: two concrete same-domain checks, the first a 405-then-GET
retry, the second a plain success. -/
theorem same_domain_request_gap_witness :
    ((0:ℚ) ≤ wBlocked.headDur ∧ (0:ℚ) ≤ wBlocked.getDur ∧
      (0:ℚ) ≤ wPlain.headDur ∧ (0:ℚ) ≤ wPlain.getDur) ∧
    (∀ t1 ∈ (runCheck "example.com" 0 0 wBlocked).issues,
      ∀ t2 ∈ (runCheck "example.com"
                (runCheck "example.com" 0 0 wBlocked).newLast 10 wPlain).issues,
        get_domain_delay "example.com" ≤ t2 - t1) :=
  ⟨⟨by simp [wBlocked], by simp [wBlocked], by simp [wPlain], by simp [wPlain]⟩,
    (same_domain_request_gap "example.com" 0 0 10 wBlocked wPlain
      (by simp [wBlocked]) (by simp [wBlocked])
      (by simp [wPlain]) (by simp [wPlain])).1⟩

/-- C10: on the 405/406 path the stored timestamp is the HEAD completion
time and is not updated after the GET retry (which finishes strictly later
whenever it takes any time at all); on the plain path the timestamp is the
completion of the single HEAD request, and on the transport-failure path it
is written after the GET fallback completes, i.e. after the last request
attempt of the call. -/
theorem domain_timestamp_update_paths (domain : String) (last entry : ℚ)
    (s : TimedScript) :
    (∀ st rs, s.headResult = HttpResult.success st rs → (st = 405 ∨ st = 406) →
      (runCheck domain last entry s).newLast
          = firstReqTime domain last entry + s.headDur ∧
      (runCheck domain last entry s).finish
          = (runCheck domain last entry s).newLast + s.getDur ∧
      (0 < s.getDur → (runCheck domain last entry s).newLast
          < (runCheck domain last entry s).finish)) ∧
    (∀ st rs, s.headResult = HttpResult.success st rs →
        ¬(st = 405 ∨ st = 406) →
      (runCheck domain last entry s).newLast
          = firstReqTime domain last entry + s.headDur ∧
      (runCheck domain last entry s).finish
          = (runCheck domain last entry s).newLast) ∧
    (∀ e, s.headResult = HttpResult.failure e →
      (runCheck domain last entry s).newLast
          = firstReqTime domain last entry + s.headDur + s.getDur ∧
      (runCheck domain last entry s).finish
          = (runCheck domain last entry s).newLast) := by
  obtain ⟨hr, hd, gr, gd⟩ := s
  refine ⟨?_, ?_, ?_⟩
  · intro st rs hh h45
    dsimp only at hh
    subst hh
    cases gr with
    | success gst grs =>
      by_cases h200 : gst = 200 <;>
        exact ⟨by simp [runCheck, h45, h200],
          by simp [runCheck, h45, h200],
          fun hgd => by simp [runCheck, h45, h200]; linarith⟩
    | failure e =>
      exact ⟨by simp [runCheck, h45],
        by simp [runCheck, h45],
        fun hgd => by simp [runCheck, h45]; linarith⟩
  · intro st rs hh h45
    dsimp only at hh
    subst hh
    exact ⟨by simp [runCheck, h45], by simp [runCheck, h45]⟩
  · intro e hh
    dsimp only at hh
    subst hh
    cases gr with
    | success gst grs =>
      exact ⟨by simp [runCheck], by simp [runCheck]⟩
    | failure e2 =>
      exact ⟨by simp [runCheck], by simp [runCheck]⟩

/-- C10 witness: the 405-retry path at a concrete input, showing the stored
timestamp equals the HEAD completion and precedes the GET completion. -/
theorem domain_timestamp_update_paths_witness :
    wBlocked.headResult = HttpResult.success 405 "Method Not Allowed" ∧
    ((405:Nat) = 405 ∨ (405:Nat) = 406) ∧ (0:ℚ) < wBlocked.getDur ∧
    ((runCheck "example.com" 0 0 wBlocked).newLast
        = firstReqTime "example.com" 0 0 + wBlocked.headDur ∧
      (runCheck "example.com" 0 0 wBlocked).newLast
        < (runCheck "example.com" 0 0 wBlocked).finish) :=
  ⟨rfl, Or.inl rfl, by simp [wBlocked],
    ((domain_timestamp_update_paths "example.com" 0 0 wBlocked).1
        405 "Method Not Allowed" rfl (Or.inl rfl)).1,
    ((domain_timestamp_update_paths "example.com" 0 0 wBlocked).1
        405 "Method Not Allowed" rfl (Or.inl rfl)).2.2 (by simp [wBlocked])⟩

theorem categorize_ne_browser_ok (r : String)
    (h : strContains r "works with browser headers" = false) :
    categorize r ≠ Category.browser_ok := by
  simp only [categorize, h]
  split
  · simp_all
  · split <;> simp

theorem classifyIssue_ne_browser_ok (st : Option Nat) (r : String)
    (h : strContains r "works with browser headers" = false) :
    classifyIssue st r ≠ some Category.browser_ok := by
  cases st with
  | none => simpa [classifyIssue] using categorize_ne_browser_ok r h
  | some n =>
    simp only [classifyIssue]
    split
    · simpa using categorize_ne_browser_ok r h
    · simp

/-- C1: the 405-on-HEAD, 200-on-GET scenario evaluated on the code.  The
checker returns status 200 with the `works with browser headers` marker, and
because the report only categorizes URLs whose status is `None` or ≥ 400,
this URL receives no category at all: it is not tagged `browser_ok` (the
claimed behaviour), merely absent from the issue list (so also not tagged
`broken`). -/
theorem head405_get200_not_categorized :
    (runCheck "example.com" 0 0 wBrowser).result
      = (some 200, "OK (works with browser headers)") ∧
    classifyIssue (some 200) "OK (works with browser headers)" = none := by
  constructor
  · rfl
  · rfl

/-- C5: when HEAD fails with a transport error and the GET fallback also
fails with a transport error, the call returns `(None, str(e2))` — the text
of the second (GET) error — and the report then classifies the URL as
`broken` (its terminal category): there is no further retry. -/
theorem transport_fallback_terminal_broken (domain : String) (last entry : ℚ)
    (s : TimedScript) (e1 e2 : String)
    (hh : s.headResult = HttpResult.failure e1)
    (hg : s.getResult = HttpResult.failure e2)
    (hb : benignText e2) :
    (runCheck domain last entry s).result = (none, e2) ∧
    classifyIssue none e2 = some Category.broken := by
  obtain ⟨hr, hd, gr, gd⟩ := s
  dsimp only at hh hg
  subst hh
  subst hg
  constructor
  · simp [runCheck]
  · simp [classifyIssue, categorize, hb.1, hb.2]

/-- C5 witness: both attempts fail on a concrete script. -/
theorem transport_fallback_terminal_broken_witness :
    wFail.headResult = HttpResult.failure "HEAD connection error" ∧
    wFail.getResult = HttpResult.failure "GET connection error" ∧
    benignText "GET connection error" ∧
    ((runCheck "example.com" 0 0 wFail).result = (none, "GET connection error") ∧
      classifyIssue none "GET connection error" = some Category.broken) :=
  ⟨rfl, rfl, ⟨by decide, by decide⟩,
    transport_fallback_terminal_broken "example.com" 0 0 wFail
      "HEAD connection error" "GET connection error" rfl rfl
      ⟨by decide, by decide⟩⟩

/-- C7: when HEAD returns 405 or 406 and the GET retry fails with a transport
error, the call returns the HEAD status with the reason suffixed
`(HEAD only, may work in browser)`, and the report classifies the URL as
`maybe_ok`. -/
theorem head_blocked_get_failed_maybe_ok (domain : String) (last entry : ℚ)
    (s : TimedScript) (st : Nat) (rs e : String)
    (hh : s.headResult = HttpResult.success st rs)
    (h45 : st = 405 ∨ st = 406)
    (hg : s.getResult = HttpResult.failure e)
    (hb : strContains rs "works with browser headers" = false) :
    (runCheck domain last entry s).result
      = (some st, rs ++ " (HEAD only, may work in browser)") ∧
    classifyIssue (some st) (rs ++ " (HEAD only, may work in browser)")
      = some Category.maybe_ok := by
  obtain ⟨hr, hd, gr, gd⟩ := s
  dsimp only at hh hg
  subst hh
  subst hg
  constructor
  · simp [runCheck, h45]
  · have h400 : 400 ≤ st := by rcases h45 with rfl | rfl <;> omega
    simp [classifyIssue, categorize, h400,
      headonly_no_browser_marker rs hb, headonly_has_maywork_marker rs]

/-- C7 witness: HEAD 405, GET transport failure, on a concrete script. -/
theorem head_blocked_get_failed_maybe_ok_witness :
    wBlocked.headResult = HttpResult.success 405 "Method Not Allowed" ∧
    ((405:Nat) = 405 ∨ (405:Nat) = 406) ∧
    wBlocked.getResult = HttpResult.failure "read timed out" ∧
    strContains "Method Not Allowed" "works with browser headers" = false ∧
    ((runCheck "example.com" 0 0 wBlocked).result
        = (some 405, "Method Not Allowed (HEAD only, may work in browser)") ∧
      classifyIssue (some 405)
          "Method Not Allowed (HEAD only, may work in browser)"
        = some Category.maybe_ok) :=
  ⟨rfl, Or.inl rfl, rfl, by decide,
    head_blocked_get_failed_maybe_ok "example.com" 0 0 wBlocked 405
      "Method Not Allowed" "read timed out" rfl (Or.inl rfl) rfl (by decide)⟩

/-- C9: whenever the network-supplied texts are benign, a returned reason
containing `works with browser headers` forces status 200 (the marker is
appended only on the 405/406-then-GET-200 path); consequently no failing
result (status `None` or ≥ 400) carries the marker, and the report branch
assigning `browser_ok` can never fire. -/
theorem browser_ok_reason_implies_200 (domain : String) (last entry : ℚ)
    (s : TimedScript) (hb : benignScript s) :
    (strContains (runCheck domain last entry s).result.2
        "works with browser headers" = true →
      (runCheck domain last entry s).result.1 = some 200) ∧
    ((runCheck domain last entry s).result.1 = none ∨
        (∃ st, (runCheck domain last entry s).result.1 = some st ∧ 400 ≤ st) →
      classifyIssue (runCheck domain last entry s).result.1
          (runCheck domain last entry s).result.2 ≠ some Category.browser_ok) := by
  obtain ⟨hbh, hbg⟩ := hb
  obtain ⟨hr, hd, gr, gd⟩ := s
  cases hr with
  | success st rs =>
    simp only [HttpResult.text] at hbh
    obtain ⟨hb1, hb2⟩ := hbh
    by_cases h45 : st = 405 ∨ st = 406
    · cases gr with
      | success gst grs =>
        simp only [HttpResult.text] at hbg
        obtain ⟨hg1, hg2⟩ := hbg
        by_cases h200 : gst = 200
        · subst h200
          constructor
          · intro _
            simp [runCheck, h45]
          · rintro (hnone | ⟨st2, hst2, h400⟩)
            · simp [runCheck, h45] at hnone
            · exfalso
              simp [runCheck, h45] at hst2
              omega
        · constructor
          · intro hcon
            exfalso
            simp [runCheck, h45, h200] at hcon
            rw [hg1] at hcon
            exact Bool.false_ne_true hcon
          · intro _
            have hres :
                (runCheck domain last entry
                  ⟨HttpResult.success st rs, hd, HttpResult.success gst grs, gd⟩).result
                  = (some gst, grs) := by
              simp [runCheck, h45, h200]
            rw [hres]
            exact classifyIssue_ne_browser_ok (some gst) grs hg1
      | failure e =>
        constructor
        · intro hcon
          exfalso
          simp [runCheck, h45] at hcon
          rw [headonly_no_browser_marker rs hb1] at hcon
          exact Bool.false_ne_true hcon
        · intro _
          have hres :
              (runCheck domain last entry
                ⟨HttpResult.success st rs, hd, HttpResult.failure e, gd⟩).result
                = (some st, rs ++ " (HEAD only, may work in browser)") := by
            simp [runCheck, h45]
          rw [hres]
          exact classifyIssue_ne_browser_ok (some st) _
            (headonly_no_browser_marker rs hb1)
    · constructor
      · intro hcon
        exfalso
        simp [runCheck, h45] at hcon
        rw [hb1] at hcon
        exact Bool.false_ne_true hcon
      · intro _
        have hres :
            (runCheck domain last entry
              ⟨HttpResult.success st rs, hd, gr, gd⟩).result = (some st, rs) := by
          simp [runCheck, h45]
        rw [hres]
        exact classifyIssue_ne_browser_ok (some st) rs hb1
  | failure e1 =>
    cases gr with
    | success gst grs =>
      simp only [HttpResult.text] at hbg
      obtain ⟨hg1, hg2⟩ := hbg
      constructor
      · intro hcon
        exfalso
        simp [runCheck] at hcon
        rw [getonly_no_browser_marker grs hg1] at hcon
        exact Bool.false_ne_true hcon
      · intro _
        have hres :
            (runCheck domain last entry
              ⟨HttpResult.failure e1, hd, HttpResult.success gst grs, gd⟩).result
              = (some gst, grs ++ " (GET only)") := by
          simp [runCheck]
        rw [hres]
        exact classifyIssue_ne_browser_ok (some gst) _
          (getonly_no_browser_marker grs hg1)
    | failure e2 =>
      simp only [HttpResult.text] at hbg
      obtain ⟨hg1, hg2⟩ := hbg
      constructor
      · intro hcon
        exfalso
        simp [runCheck] at hcon
        rw [hg1] at hcon
        exact Bool.false_ne_true hcon
      · intro _
        have hres :
            (runCheck domain last entry
              ⟨HttpResult.failure e1, hd, HttpResult.failure e2, gd⟩).result
              = (none, e2) := by
          simp [runCheck]
        rw [hres]
        exact classifyIssue_ne_browser_ok none e2 hg1

/-- C9 witness: the benign 405-then-GET-200 script, whose result does carry
the marker and does have status 200. -/
theorem browser_ok_reason_implies_200_witness :
    benignScript wBrowser ∧
    (strContains (runCheck "example.com" 0 0 wBrowser).result.2
        "works with browser headers" = true →
      (runCheck "example.com" 0 0 wBrowser).result.1 = some 200) ∧
    ((runCheck "example.com" 0 0 wBrowser).result.1 = none ∨
        (∃ st, (runCheck "example.com" 0 0 wBrowser).result.1 = some st ∧
          400 ≤ st) →
      classifyIssue (runCheck "example.com" 0 0 wBrowser).result.1
          (runCheck "example.com" 0 0 wBrowser).result.2
        ≠ some Category.browser_ok) :=
  ⟨⟨⟨by decide, by decide⟩, ⟨by decide, by decide⟩⟩,
    browser_ok_reason_implies_200 "example.com" 0 0 wBrowser
      ⟨⟨by decide, by decide⟩, ⟨by decide, by decide⟩⟩⟩

theorem aPass_isSome (t : HtmlTag) : (aPass t).isSome = qualifiesA t := by
  cases t with
  | aTag o =>
    cases o with
    | none => rfl
    | some href => cases hs : strStarts href "http" <;> simp [aPass, qualifiesA, hs]
  | imgTag o => rfl
  | linkTag o => rfl
  | otherTag => rfl

theorem imgPass_isSome (t : HtmlTag) : (imgPass t).isSome = qualifiesImg t := by
  cases t with
  | aTag o => rfl
  | imgTag o =>
    cases o with
    | none => rfl
    | some src =>
      cases h1 : strStarts src "http" <;> cases h2 : strStarts src "#" <;>
        cases h3 : strStarts src "data:" <;> simp [imgPass, qualifiesImg, h1, h2, h3]
  | linkTag o => rfl
  | otherTag => rfl

theorem linkPass_isSome (t : HtmlTag) : (linkPass t).isSome = qualifiesLink t := by
  cases t with
  | aTag o => rfl
  | imgTag o => rfl
  | linkTag o =>
    cases o with
    | none => rfl
    | some href => cases hs : strStarts href "http" <;> simp [linkPass, qualifiesLink, hs]
  | otherTag => rfl

/-- C2 counterexample: an input with exactly one anchor/image/link tag (an
anchor with a relative target) yields zero tuples, not one — the extractor
filters by URL scheme, so it does not return one tuple per tag. -/
theorem extract_links_misses_relative_anchor :
    (extract_links_from_html [HtmlTag.aTag (some "notes.html")]).length
      ≠ List.countP isRefTag [HtmlTag.aTag (some "notes.html")] := by
  decide

/-- C2 (amended): the extractor returns exactly one tuple per qualifying tag
(anchors and `<link>` tags with an `http(s)` target, images with an `http(s)`
or non-fragment, non-data relative `src`), and every returned tuple is
classified according to its originating tag kind and URL scheme. -/
theorem extract_links_amended (tags : List HtmlTag) :
    (extract_links_from_html tags).length
      = tags.countP qualifiesA + tags.countP qualifiesImg
        + tags.countP qualifiesLink ∧
    ∀ p ∈ extract_links_from_html tags, kindSound tags p := by
  constructor
  · unfold extract_links_from_html
    rw [List.length_append, List.length_append,
      List.length_filterMap_eq_countP, List.length_filterMap_eq_countP,
      List.length_filterMap_eq_countP,
      show (fun t => (aPass t).isSome) = qualifiesA from funext aPass_isSome,
      show (fun t => (imgPass t).isSome) = qualifiesImg from funext imgPass_isSome,
      show (fun t => (linkPass t).isSome) = qualifiesLink from funext linkPass_isSome,
      Nat.add_assoc]
  · intro p hp
    unfold extract_links_from_html at hp
    rcases List.mem_append.mp hp with hp12 | hpl
    rcases List.mem_append.mp hp12 with hpa | hpi
    · rcases List.mem_filterMap.mp hpa with ⟨t, ht, he⟩
      cases t with
      | aTag o =>
        cases o with
        | none => simp [aPass] at he
        | some href =>
          by_cases hs : strStarts href "http"
          · simp only [aPass, if_pos hs] at he
            cases he
            exact ⟨ht, hs⟩
          · simp [aPass, hs] at he
      | imgTag o => simp [aPass] at he
      | linkTag o => simp [aPass] at he
      | otherTag => simp [aPass] at he
    · rcases List.mem_filterMap.mp hpi with ⟨t, ht, he⟩
      cases t with
      | aTag o => simp [imgPass] at he
      | imgTag o =>
        cases o with
        | none => simp [imgPass] at he
        | some src =>
          by_cases h1 : strStarts src "http"
          · simp only [imgPass, if_pos h1] at he
            cases he
            exact ⟨ht, h1⟩
          · by_cases h2 : (!strStarts src "#" && !strStarts src "data:") = true
            · simp only [imgPass, if_neg h1, if_pos h2] at he
              cases he
              have h1f : strStarts src "http" = false := by simpa using h1
              rw [Bool.and_eq_true, Bool.not_eq_true', Bool.not_eq_true'] at h2
              exact ⟨ht, h1f, h2.1, h2.2⟩
            · simp only [imgPass, if_neg h1, if_neg h2] at he
              cases he
      | linkTag o => simp [imgPass] at he
      | otherTag => simp [imgPass] at he
    · rcases List.mem_filterMap.mp hpl with ⟨t, ht, he⟩
      cases t with
      | aTag o => simp [linkPass] at he
      | imgTag o => simp [linkPass] at he
      | linkTag o =>
        cases o with
        | none => simp [linkPass] at he
        | some href =>
          by_cases hs : strStarts href "http"
          · simp only [linkPass, if_pos hs] at he
            cases he
            exact ⟨ht, hs⟩
          · simp [linkPass, hs] at he
      | otherTag => simp [linkPass] at he

/-- C2 witness: a concrete tag soup with one qualifying tag per pass. -/
theorem extract_links_amended_witness :
    ((LinkKind.local_image, "images/fig1.png") ∈ extract_links_from_html wTags) ∧
    kindSound wTags (LinkKind.local_image, "images/fig1.png") ∧
    (extract_links_from_html wTags).length
      = wTags.countP qualifiesA + wTags.countP qualifiesImg
        + wTags.countP qualifiesLink :=
  ⟨by decide,
    (extract_links_amended wTags).2 _ (by decide),
    (extract_links_amended wTags).1⟩

theorem dictKeys_update {V : Type} (a b : String → Option V) :
    dictKeys (dict_update a b) = dictKeys a ∪ dictKeys b := by
  ext k
  simp only [dictKeys, dict_update, Set.mem_union, Set.mem_setOf_eq]
  cases hbk : b k <;> simp [hbk]

theorem merge_keys {V : Type} (d0 : String → Option V)
    (m : List (String → Option V)) :
    dictKeys (m.foldl dict_update d0)
      = dictKeys d0 ∪ {k | ∃ b ∈ m, k ∈ dictKeys b} := by
  induction m generalizing d0 with
  | nil => ext k; simp
  | cons b m ih =>
    rw [List.foldl_cons, ih, dictKeys_update]
    ext k
    simp only [Set.mem_union, Set.mem_setOf_eq, List.mem_cons]
    constructor
    · rintro ((h | h) | ⟨d, hd, hk⟩)
      · exact Or.inl h
      · exact Or.inr ⟨b, Or.inl rfl, h⟩
      · exact Or.inr ⟨d, Or.inr hd, hk⟩
    · rintro (h | ⟨d, (rfl | hd), hk⟩)
      · exact Or.inl (Or.inl h)
      · exact Or.inl (Or.inr hk)
      · exact Or.inr ⟨d, hd, hk⟩

/-- C4: merging batch result maps into the aggregate in any completion order
yields a map whose key set is the union of the per-batch key sets (the
pairwise disjointness of per-batch keys, guaranteed by URL deduplication,
is stated as the claim states it). -/
theorem merge_batches_keys_union {V : Type} (l l' : List (String → Option V))
    (hperm : l.Perm l')
    (_hdisj : l.Pairwise (fun a b => dictKeys a ∩ dictKeys b = ∅)) :
    dictKeys (merge_results l') = {k | ∃ d ∈ l, k ∈ dictKeys d} := by
  unfold merge_results
  rw [merge_keys]
  have h0 : dictKeys (fun _ : String => (none : Option V)) = ∅ := by
    ext k; simp [dictKeys]
  rw [h0, Set.empty_union]
  ext k
  simp only [Set.mem_setOf_eq]
  constructor
  · rintro ⟨d, hd, hk⟩
    exact ⟨d, hperm.mem_iff.mpr hd, hk⟩
  · rintro ⟨d, hd, hk⟩
    exact ⟨d, hperm.mem_iff.mp hd, hk⟩

/-- C4 witness: two disjoint singleton batches merged in swapped order. -/
theorem merge_batches_keys_union_witness :
    ([wDictA, wDictB].Perm [wDictB, wDictA]) ∧
    ([wDictA, wDictB].Pairwise
      (fun a b => dictKeys a ∩ dictKeys b = ∅)) ∧
    dictKeys (merge_results [wDictB, wDictA])
      = {k | ∃ d ∈ [wDictA, wDictB], k ∈ dictKeys d} := by
  have hAB : dictKeys wDictA ∩ dictKeys wDictB = ∅ := by
    ext k
    simp only [dictKeys, wDictA, wDictB, Set.mem_inter_iff, Set.mem_setOf_eq,
      Set.mem_empty_iff_false, iff_false]
    rintro ⟨h1, h2⟩
    by_cases hka : k = "a"
    · subst hka
      exact h2 (by decide)
    · exact h1 (by simp [hka])
  have hperm : [wDictA, wDictB].Perm [wDictB, wDictA] :=
    List.Perm.swap wDictB wDictA []
  have hpair : [wDictA, wDictB].Pairwise
      (fun a b => dictKeys a ∩ dictKeys b = ∅) := by
    refine List.Pairwise.cons ?_ (List.pairwise_singleton _ _)
    intro b hb
    rw [List.mem_singleton] at hb
    subst hb
    exact hAB
  exact ⟨hperm, hpair, merge_batches_keys_union _ _ hperm hpair⟩

/-- C6: a relative local-image path is reported existing when found under
the HTML directory, or — failing that — under the HTML directory's parent
(the project root, here `os.path.dirname('../html') = '..'`), and reported
missing when found in neither. -/
theorem check_local_file_two_roots (fs : String → Bool) (p d : String)
    (_hrel : strStarts p "/" = false) :
    (fs (osJoin d p) = true →
      check_local_file fs p d = (true, "File exists")) ∧
    (fs (osJoin d p) = false → fs (osJoin (osDirname d) p) = true →
      check_local_file fs p d = (true, "File exists")) ∧
    (fs (osJoin d p) = false → fs (osJoin (osDirname d) p) = false →
      check_local_file fs p d = (false, "File not found")) ∧
    osDirname "../html" = ".." := by
  refine ⟨?_, ?_, ?_, by decide⟩
  · intro h1
    simp [check_local_file, h1]
  · intro h1 h2
    simp [check_local_file, h1, h2]
  · intro h1 h2
    simp [check_local_file, h1, h2]

/-- C6 witness: a relative path present only under the project root. -/
theorem check_local_file_two_roots_witness :
    strStarts "images/fig.png" "/" = false ∧
    fs0 (osJoin "../html" "images/fig.png") = false ∧
    fs0 (osJoin (osDirname "../html") "images/fig.png") = true ∧
    check_local_file fs0 "images/fig.png" "../html" = (true, "File exists") :=
  ⟨by decide, by decide, by decide,
    (check_local_file_two_roots fs0 "images/fig.png" "../html"
      (by decide)).2.1 (by decide) (by decide)⟩

theorem chunkFuel_nil {α : Type} (f : Nat) : chunkFuel f ([] : List α) = [] := by
  cases f <;> rfl

theorem chunkFuel_flatten {α : Type} : ∀ (f : Nat) (l : List α),
    l.length ≤ f → (chunkFuel f l).flatten = l := by
  intro f
  induction f with
  | zero =>
    intro l h
    have hl : l = [] := List.length_eq_zero.mp (Nat.le_zero.mp h)
    subst hl
    rfl
  | succ f ih =>
    intro l h
    cases l with
    | nil => rfl
    | cons x xs =>
      have h2 : xs.length + 1 ≤ f + 1 := by simpa using h
      have hrec : ((x :: xs).drop batch_size).length ≤ f := by
        simp only [List.length_drop, List.length_cons, batch_size]
        omega
      calc (chunkFuel (f + 1) (x :: xs)).flatten
          = (x :: xs).take batch_size
              ++ (chunkFuel f ((x :: xs).drop batch_size)).flatten := by
            rw [show chunkFuel (f + 1) (x :: xs)
                = ((x :: xs).take batch_size)
                  :: chunkFuel f ((x :: xs).drop batch_size) from rfl,
              List.flatten_cons]
        _ = (x :: xs).take batch_size ++ (x :: xs).drop batch_size := by
            rw [ih _ hrec]
        _ = x :: xs := List.take_append_drop _ _

theorem chunkFuel_chunks {α : Type} : ∀ (f : Nat) (l : List α),
    ∀ c ∈ chunkFuel f l, c ≠ [] ∧ c.length ≤ batch_size := by
  intro f
  induction f with
  | zero =>
    intro l c hc
    cases l <;> simp [chunkFuel] at hc
  | succ f ih =>
    intro l c hc
    cases l with
    | nil => simp [chunkFuel] at hc
    | cons x xs =>
      rcases List.mem_cons.mp hc with rfl | hc2
      · constructor
        · simp [List.take_eq_nil_iff, batch_size]
        · exact List.length_take_le _ _
      · exact ih _ c hc2

theorem chunkFuel_dropLast {α : Type} : ∀ (f : Nat) (l : List α),
    l.length ≤ f → ∀ c ∈ (chunkFuel f l).dropLast, c.length = batch_size := by
  intro f
  induction f with
  | zero =>
    intro l h c hc
    have hl : l = [] := List.length_eq_zero.mp (Nat.le_zero.mp h)
    subst hl
    simp [chunkFuel] at hc
  | succ f ih =>
    intro l h c hc
    cases l with
    | nil => simp [chunkFuel] at hc
    | cons x xs =>
      have h2 : xs.length + 1 ≤ f + 1 := by simpa using h
      cases hrest : chunkFuel f ((x :: xs).drop batch_size) with
      | nil =>
        rw [show chunkFuel (f + 1) (x :: xs)
            = ((x :: xs).take batch_size)
              :: chunkFuel f ((x :: xs).drop batch_size) from rfl,
          hrest] at hc
        simp at hc
      | cons r rs =>
        rw [show chunkFuel (f + 1) (x :: xs)
            = ((x :: xs).take batch_size)
              :: chunkFuel f ((x :: xs).drop batch_size) from rfl,
          hrest, List.dropLast_cons₂] at hc
        rcases List.mem_cons.mp hc with rfl | hc2
        · have hne : (x :: xs).drop batch_size ≠ [] := by
            intro hnil
            rw [hnil, chunkFuel_nil] at hrest
            cases hrest
          have hL : ¬((x :: xs).length ≤ batch_size) := fun hle =>
            hne (List.drop_eq_nil_iff.mpr hle)
          rw [List.length_take]
          omega
        · have hrec : ((x :: xs).drop batch_size).length ≤ f := by
            simp only [List.length_drop, List.length_cons, batch_size]
            omega
          apply ih ((x :: xs).drop batch_size) hrec
          rw [hrest]
          exact hc2

/-- C8: the batch splitter partitions the URL list into consecutive chunks:
their concatenation is the original list, every chunk is nonempty with at
most `batch_size` elements, every chunk but the last has exactly
`batch_size` elements, and (for a duplicate-free list, as produced by the
`set` deduplication) every URL occurs in exactly one position across all
chunks. -/
theorem url_batches_partition {α : Type} [DecidableEq α] (l : List α) :
    (urlBatches l).flatten = l ∧
    (∀ c ∈ urlBatches l, c ≠ [] ∧ c.length ≤ batch_size) ∧
    (∀ c ∈ (urlBatches l).dropLast, c.length = batch_size) ∧
    (l.Nodup → ∀ u ∈ l, ((urlBatches l).map (List.count u)).sum = 1) := by
  unfold urlBatches
  refine ⟨chunkFuel_flatten _ _ (Nat.le_refl _), chunkFuel_chunks _ _,
    chunkFuel_dropLast _ _ (Nat.le_refl _), ?_⟩
  intro hnd u hu
  rw [← List.count_flatten, chunkFuel_flatten _ _ (Nat.le_refl _)]
  exact List.count_eq_one_of_mem hnd hu

/-- C8 witness: 21 distinct URLs split into a chunk of 20 and a chunk of 1. -/
theorem url_batches_partition_witness :
    (List.range 21).Nodup ∧ 5 ∈ List.range 21 ∧
    ((urlBatches (List.range 21)).map (List.count 5)).sum = 1 ∧
    (urlBatches (List.range 21)).flatten = List.range 21 :=
  ⟨by decide, by decide,
    (url_batches_partition (List.range 21)).2.2.2 (by decide) 5 (by decide),
    (url_batches_partition (List.range 21)).1⟩

end BrokenLinkCheck
